import Mathlib

/-!
Shallow embedding of `readdump.go` (heap-dump reader of the hprof
repository): the record data model, the pointer decoder `readPtr`, and the
`link` phase (type resolution, pointer discovery via `appendFields`, frame
chaining, goroutine stack walking, root resolution, array/chan element
iteration and finalizer edges).

Modelling conventions:
* Go `uint64` values are `Nat`; an explicit `% 2 ^ 64` (`add64`, `sub64`)
  is applied exactly where Go's wraparound can matter (key computations,
  the array/chan loop bound, bounds comparisons).
* Go pointers `*Object`, `*StackFrame`, `*GoRoutine` are modelled as
  indices into the corresponding record list of the `Dump`, so pointer
  identity is index equality.
* `log.Fatal` and Go runtime index-out-of-range panics are modelled as
  `Except` errors (`LinkErr.fatal`, `LinkErr.indexOutOfRange`).  The
  array/chan loop of the link phase is modelled with fuel; fuel exhaustion
  (`LinkErr.nonTermination`) corresponds to the Go loop failing to
  terminate within any bound reachable by a terminating execution.
-/

/-- Go `uint64` addition (wraps modulo `2 ^ 64`). -/
def add64 (a b : Nat) : Nat := (a + b) % 2 ^ 64

/-- Go `uint64` subtraction (wraps modulo `2 ^ 64`). -/
def sub64 (a b : Nat) : Nat := (a % 2 ^ 64 + 2 ^ 64 - b % 2 ^ 64) % 2 ^ 64

/-- The two byte orders a `Params` record can select
(`binary.LittleEndian` / `binary.BigEndian`). -/
inductive ByteOrder
  | little
  | big
  deriving DecidableEq

/-- Abnormal termination of the Go code: `log.Fatal` calls, Go runtime
index-out-of-range panics (slicing or indexing past the end of a byte
slice), and fuel exhaustion of the fuelled array/chan loop, which models a
Go loop that does not terminate. -/
inductive LinkErr
  | fatal (msg : String)
  | indexOutOfRange
  | nonTermination
  deriving DecidableEq

def fieldKindPtr : Nat := 0
def fieldKindString : Nat := 1
def fieldKindSlice : Nat := 2
def fieldKindIface : Nat := 3
def fieldKindEface : Nat := 4
def fieldKindEol : Nat := 5

def typeKindObject : Nat := 0
def typeKindArray : Nat := 1
def typeKindChan : Nat := 2

/-- A location in an object where there might be a pointer
(source `FieldRec`; `kind` is the raw Go integer). -/
structure FieldRec where
  kind : Nat
  offset : Nat
  name : String
  deriving DecidableEq

/-- Source struct `Type` (renamed: `Type` is not a usable name in Lean). -/
structure TypeRec where
  name : String
  size : Nat
  efaceptr : Bool
  fields : List FieldRec
  addr : Nat
  deriving DecidableEq

/-- Source struct `Object`.  `data` is the raw byte payload (each entry a
byte value); outgoing edges are computed by `link` and kept separately in
the `LinkResult`. -/
structure Object where
  kind : Nat
  data : List Nat
  addr : Nat
  typaddr : Nat
  deriving DecidableEq

/-- Source struct `Edge`.  `dst` is the source's `to` field (`to` is a
reserved token in Lean): the index of the destination object in
`Dump.objects`, modelling the Go `*Object`. -/
structure Edge where
  dst : Nat
  fromoffset : Nat
  tooffset : Nat
  fieldname : String
  fieldoffset : Nat
  deriving DecidableEq

/-- Source struct `StackFrame` (the linked fields `parent`, `goroutine`,
`edges` live in the `LinkResult`). -/
structure StackFrame where
  name : String
  depth : Nat
  data : List Nat
  addr : Nat
  entry : Nat
  pc : Nat
  fields : List FieldRec
  deriving DecidableEq

/-- Source struct `GoRoutine` (the linked fields `tos`, `ctxt` live in the
`LinkResult`). -/
structure GoRoutine where
  addr : Nat
  tosaddr : Nat
  goid : Nat
  gopc : Nat
  status : Nat
  issystem : Bool
  isbackground : Bool
  waitsince : Nat
  waitreason : String
  ctxtaddr : Nat
  maddr : Nat
  deriving DecidableEq

/-- Source struct `DataRoot` (raw fields; `name` and `e` are computed by
`link` and live in the `LinkResult`). -/
structure DataRoot where
  fromaddr : Nat
  toaddr : Nat
  deriving DecidableEq

/-- Source struct `OtherRoot`. -/
structure OtherRoot where
  description : String
  toaddr : Nat
  deriving DecidableEq

/-- Source struct `Finalizer`. -/
structure Finalizer where
  obj : Nat
  fn : Nat
  code : Nat
  fint : Nat
  ot : Nat
  deriving DecidableEq

/-- Source struct `Itab`. -/
structure Itab where
  addr : Nat
  ptr : Bool
  deriving DecidableEq

/-- Source struct `Dump`: the record collections produced by `rawRead`
that participate in linking (`osthreads` and `memstats` are carried along
by the source but never read by `link`; they are omitted). -/
structure Dump where
  order : ByteOrder
  ptrSize : Nat
  hChanSize : Nat
  heapStart : Nat
  heapEnd : Nat
  thechar : Nat
  experiment : String
  ncpu : Nat
  types : List TypeRec
  objects : List Object
  frames : List StackFrame
  goroutines : List GoRoutine
  dataroots : List DataRoot
  otherroots : List OtherRoot
  finalizers : List Finalizer
  itabs : List Itab
  deriving DecidableEq

/-- Modelled from the spec: the repository's ordered `Heap` interval map
is not under `src/` (only its `Insert` and `Lookup` callers are).  Per the
spec, `lookup(query)` returns the greatest stored key `≤ query` with its
value and `(0, nil)` when no such key exists, and insertion overwrites on
duplicate keys.  The map is represented by the list of inserted
`(key, value)` pairs in insertion order; the fold keeps the last entry
carrying the greatest key `≤ q`. -/
def heapLookup {α : Type} (entries : List (Nat × α)) (q : Nat) : Nat × Option α :=
  entries.foldl
    (fun acc kv =>
      if kv.1 ≤ q ∧ (acc.2.isNone ∨ acc.1 ≤ kv.1) then (kv.1, some kv.2) else acc)
    (0, none)

/-- Pair each list element with its index, starting at `k` (used to model
Go loops that need the element's position for pointer identity). -/
def withIdx {α : Type} : Nat → List α → List (Nat × α)
  | _, [] => []
  | k, x :: xs => (k, x) :: withIdx (k + 1) xs

/-- Last-binding-wins association lookup: models reading a Go map that was
filled by iterating a record list with `m[key] = value` (duplicates get
thrown away, the last write wins). -/
def assocLast {κ α : Type} [DecidableEq κ] (l : List (κ × α)) (k : κ) : Option α :=
  l.foldl (fun acc kv => if kv.1 = k then some kv.2 else acc) none

/-- Sequential effectful map over a record list: the Go `for` loops of the
link phase run left to right and the first `log.Fatal`/panic aborts
everything. -/
def mapE {α β : Type} (f : α → Except LinkErr β) : List α → Except LinkErr (List β)
  | [] => .ok []
  | x :: xs => do
    let y ← f x
    let ys ← mapE f xs
    .ok (y :: ys)

/-- Byte fetch `b[i]`; out of range is a Go runtime panic. -/
def getByte (b : List Nat) (i : Nat) : Except LinkErr Nat :=
  match b.get? i with
  | some v => .ok v
  | none => .error .indexOutOfRange

/-- Source function `readPtr`: decode a pointer-sized word from the head
of `b` according to the dump's byte order and pointer size.  Exactly the
four combinations {little, big} × {4, 8} are supported; anything else is a
`log.Fatal`. -/
def readPtr (d : Dump) (b : List Nat) : Except LinkErr Nat :=
  if d.order = ByteOrder.little ∧ d.ptrSize = 4 then do
    let b0 ← getByte b 0
    let b1 ← getByte b 1
    let b2 ← getByte b 2
    let b3 ← getByte b 3
    .ok (b0 + b1 * 2 ^ 8 + b2 * 2 ^ 16 + b3 * 2 ^ 24)
  else if d.order = ByteOrder.big ∧ d.ptrSize = 4 then do
    let b0 ← getByte b 0
    let b1 ← getByte b 1
    let b2 ← getByte b 2
    let b3 ← getByte b 3
    .ok (b3 + b2 * 2 ^ 8 + b1 * 2 ^ 16 + b0 * 2 ^ 24)
  else if d.order = ByteOrder.little ∧ d.ptrSize = 8 then do
    let b0 ← getByte b 0
    let b1 ← getByte b 1
    let b2 ← getByte b 2
    let b3 ← getByte b 3
    let b4 ← getByte b 4
    let b5 ← getByte b 5
    let b6 ← getByte b 6
    let b7 ← getByte b 7
    .ok (b0 + b1 * 2 ^ 8 + b2 * 2 ^ 16 + b3 * 2 ^ 24 + b4 * 2 ^ 32 +
      b5 * 2 ^ 40 + b6 * 2 ^ 48 + b7 * 2 ^ 56)
  else if d.order = ByteOrder.big ∧ d.ptrSize = 8 then do
    let b0 ← getByte b 0
    let b1 ← getByte b 1
    let b2 ← getByte b 2
    let b3 ← getByte b 3
    let b4 ← getByte b 4
    let b5 ← getByte b 5
    let b6 ← getByte b 6
    let b7 ← getByte b 7
    .ok (b7 + b6 * 2 ^ 8 + b5 * 2 ^ 16 + b4 * 2 ^ 24 + b3 * 2 ^ 32 +
      b2 * 2 ^ 40 + b1 * 2 ^ 48 + b0 * 2 ^ 56)
  else
    .error (.fatal "unsupported order/ptrSize")

/-- Go slice expression `data[off:]`: panics when `off > len(data)`. -/
def sliceFrom (data : List Nat) (off : Nat) : Except LinkErr (List Nat) :=
  if off ≤ data.length then .ok (data.drop off) else .error .indexOutOfRange

/-- The call pattern `readPtr(info.dump, data[off:])` of the source. -/
def readPtrAt (d : Dump) (data : List Nat) (off : Nat) : Except LinkErr Nat := do
  let b ← sliceFrom data off
  readPtr d b

/-- The objects interval map: `Insert(x.addr, x)` for each object in dump
order; values are object indices (modelling the stored `*Object`). -/
def objectsHeap (d : Dump) : List (Nat × Nat) :=
  (withIdx 0 d.objects).map fun p => (p.2.addr, p.1)

/-- Source method `LinkInfo.findObj`: floor-lookup `addr` among object
base addresses, then reject the hit when `addr` lies at or beyond the end
of the object's payload.  Returns the index of the found object. -/
def findObj (d : Dump) (addr : Nat) : Option Nat :=
  match (heapLookup (objectsHeap d) addr).2 with
  | none => none
  | some xi =>
    match d.objects.get? xi with
    | none => none
    | some x => if addr ≥ add64 x.addr x.data.length then none else some xi

/-- Source method `LinkInfo.appendEdge`: decode the pointer at
`data[off:]`; if it lands inside some object, append an edge to it.  No
bounds check precedes the decode. -/
def appendEdge (d : Dump) (edges : List Edge) (data : List Nat) (off : Nat)
    (f : FieldRec) : Except LinkErr (List Edge) := do
  let p ← readPtrAt d data off
  match findObj d p with
  | none => .ok edges
  | some qi =>
    match d.objects.get? qi with
    | none => .ok edges
    | some q => .ok (edges ++ [⟨qi, off, p - q.addr, f.name, 0⟩])

/-- The Go map `map[uint64]*Type` of the link phase (last record wins). -/
def typesMap (d : Dump) (addr : Nat) : Option TypeRec :=
  assocLast (d.types.map fun t => (t.addr, t)) addr

/-- The Go map `map[uint64]*Itab` of the link phase (last record wins). -/
def itabsMap (d : Dump) (addr : Nat) : Option Itab :=
  assocLast (d.itabs.map fun t => (t.addr, t)) addr

/-- Source method `LinkInfo.appendFields`: walk the field descriptors,
decoding pointer words at `offset + f.offset` per field kind.  Unknown
eface types and iface itabs are fatal; field kinds outside the five
pointer-bearing kinds are skipped (Go `switch` default). -/
def appendFields (d : Dump) (edges : List Edge) (data : List Nat)
    (fields : List FieldRec) (offset : Nat) : Except LinkErr (List Edge) :=
  match fields with
  | [] => .ok edges
  | f :: rest => do
    let off := add64 offset f.offset
    let edges2 ←
      if f.kind = fieldKindPtr ∨ f.kind = fieldKindString ∨ f.kind = fieldKindSlice then
        appendEdge d edges data off f
      else if f.kind = fieldKindEface then do
        let edges3 ← appendEdge d edges data off f
        let tp ← readPtrAt d data off
        if tp ≠ 0 then
          match typesMap d tp with
          | none => .error (.fatal "cant find eface type")
          | some t =>
            if t.efaceptr then
              appendEdge d edges3 data (add64 off d.ptrSize) f
            else
              .ok edges3
        else
          .ok edges3
      else if f.kind = fieldKindIface then do
        let tp ← readPtrAt d data off
        if tp ≠ 0 then
          match itabsMap d tp with
          | none => .error (.fatal "cant find iface tab")
          | some t =>
            if t.ptr then
              appendEdge d edges data (add64 off d.ptrSize) f
            else
              .ok edges
        else
          .ok edges
      else
        .ok edges
    appendFields d edges2 data rest offset

/-- Link phase: bind each object to its type record; `typaddr == 0` means
untyped (`nil`), any other address must resolve or the link is fatal. -/
def resolveTypes (d : Dump) : Except LinkErr (List (Option TypeRec)) :=
  mapE (fun x =>
    if x.typaddr = 0 then .ok none
    else
      match typesMap d x.typaddr with
      | none => .error (.fatal "type is missing")
      | some t => .ok (some t)) d.objects

/-- The Go map `map[frameKey]*StackFrame` keyed by `(sp, depth)` (last
frame record wins); values are frame indices. -/
def lookupFrame (d : Dump) (sp : Nat) (depth : Nat) : Option Nat :=
  assocLast ((withIdx 0 d.frames).map fun p => ((p.2.addr, p.2.depth), p.1)) (sp, depth)

/-- Link phase: parent of each frame is the frame keyed by
`(f.addr + len(f.data), f.depth + 1)`; a missing parent is the base of the
stack, not an error. -/
def frameParents (d : Dump) : List (Option Nat) :=
  d.frames.map fun f => lookupFrame d (add64 f.addr f.data.length) (add64 f.depth 1)

/-- The goroutine stack walk `for f := g.tos; f != nil; f = f.parent`,
with fuel.  Returns the list of visited frame indices, or `none` when the
fuel runs out. -/
def chase (parents : List (Option Nat)) : Nat → Nat → Option (List Nat)
  | 0, _ => none
  | fuel + 1, i =>
    match parents.getD i none with
    | none => some [i]
    | some j =>
      match chase parents fuel j with
      | none => none
      | some l => some (i :: l)

/-- The `k`-th frame index on the parent chain starting at `start`
(`none` once the chain has ended). -/
def chainIdx (parents : List (Option Nat)) (start : Nat) : Nat → Option Nat
  | 0 => some start
  | k + 1 =>
    match chainIdx parents start k with
    | some i => parents.getD i none
    | none => none

/-- Per-goroutine link work: find the top-of-stack frame (missing is
fatal), walk the parent chain, resolve `ctxt`.  Result: (tos index,
visited frame indices, ctxt object index). -/
def goChain (d : Dump) (parents : List (Option Nat)) (g : GoRoutine) :
    Except LinkErr (Nat × List Nat × Option Nat) :=
  match lookupFrame d g.tosaddr 0 with
  | none => .error (.fatal "tos missing")
  | some ti =>
    match chase parents (d.frames.length + 1) ti with
    | none => .error .nonTermination
    | some visited => .ok (ti, visited, findObj d g.ctxtaddr)

/-- All goroutine chains, in dump order. -/
def linkChains (d : Dump) : Except LinkErr (List (Nat × List Nat × Option Nat)) :=
  mapE (goChain d (frameParents d)) d.goroutines

/-- Set `frame.goroutine = g` on every frame index in `visited`. -/
def setAll (acc : List (Option Nat)) (visited : List Nat) (g : Nat) :
    List (Option Nat) :=
  visited.foldl (fun a fi => a.set fi (some g)) acc

/-- Apply the goroutine assignments of the chains in order (each later
goroutine overwrites earlier assignments on shared frames, as the Go loop
does). -/
def applyChainsAux (acc : List (Option Nat)) (k : Nat) :
    List (List Nat) → List (Option Nat)
  | [] => acc
  | c :: cs => applyChainsAux (setAll acc c k) (k + 1) cs

/-- `frame.goroutine` for every frame after the goroutine phase, starting
from all-`nil`. -/
def applyChains (n : Nat) (chains : List (List Nat)) : List (Option Nat) :=
  applyChainsAux (List.replicate n none) 0 chains

/-- Link phase for data roots: floor-lookup the global name (missing
yields the sentinel `(0, nil)` and the name `"unknown global"`), then
resolve the destination object.  `globals` is the DWARF globals interval
map, passed in as the list of its insertions. -/
def linkDataRoots (d : Dump) (globals : List (Nat × String)) :
    List (String × Option Edge) :=
  d.dataroots.map fun r =>
    let la := heapLookup globals r.fromaddr
    let name :=
      match la.2 with
      | some s => s
      | none => "unknown global"
    let e :=
      match findObj d r.toaddr with
      | none => none
      | some xi =>
        match d.objects.get? xi with
        | none => none
        | some x => some (⟨xi, r.fromaddr - la.1, r.toaddr - x.addr, "", 0⟩ : Edge)
    (name, e)

/-- Link phase for other roots. -/
def linkOtherRoots (d : Dump) : List (Option Edge) :=
  d.otherroots.map fun r =>
    match findObj d r.toaddr with
    | none => none
    | some xi =>
      match d.objects.get? xi with
      | none => none
      | some x => some (⟨xi, 0, r.toaddr - x.addr, "", 0⟩ : Edge)

/-- The array/chan element loop
`for i := start; i <= uint64(len(data)) - t.size; i += t.size`, with the
uint64 subtraction in the bound taken verbatim (it underflows when
`len(data) < t.size`).  Fuelled: fuel `len(data) + 2` covers every
terminating execution; exhaustion models non-termination. -/
def arrayLoop (d : Dump) (data : List Nat) (fields : List FieldRec) (sz : Nat) :
    Nat → Nat → List Edge → Except LinkErr (List Edge)
  | 0, _, _ => .error .nonTermination
  | fuel + 1, i, edges =>
    if i ≤ sub64 data.length sz then do
      let edges2 ← appendFields d edges data fields i
      arrayLoop d data fields sz fuel (add64 i sz) edges2
    else
      .ok edges

/-- Link phase L9 (object-to-object edges), per object: typeless objects
are skipped; `Object` kind scans once at base 0, `Array` kind scans each
element, `Chan` kind starts after the channel header. -/
def objEdgesL9 (d : Dump) (typs : List (Option TypeRec)) :
    Except LinkErr (List (List Edge)) :=
  mapE (fun p =>
    match p.2 with
    | none => .ok []
    | some t =>
      if p.1.kind = typeKindObject then
        appendFields d [] p.1.data t.fields 0
      else if p.1.kind = typeKindArray then
        arrayLoop d p.1.data t.fields t.size (p.1.data.length + 2) 0 []
      else if p.1.kind = typeKindChan then
        arrayLoop d p.1.data t.fields t.size (p.1.data.length + 2) d.hChanSize []
      else
        .ok []) (d.objects.zip typs)

/-- Link phase L10: edges appended to object `oi` by the finalizer loop.
Taken verbatim from the source: the destination written into the edge is
`x` (the finalized object) while the offset is computed from `y` (the
object the auxiliary address resolves to). -/
def finalizerContrib (d : Dump) (oi : Nat) : List Edge :=
  d.finalizers.foldl
    (fun acc f =>
      match findObj d f.obj with
      | none => acc
      | some xi =>
        if xi = oi then
          acc ++ ([f.fn, f.fint, f.ot].filterMap fun addr =>
            match findObj d addr with
            | none => none
            | some yi =>
              match d.objects.get? yi with
              | none => none
              | some y => some (⟨xi, 0, addr - y.addr, "", 0⟩ : Edge))
        else acc)
    []

/-- The state the `link` pass leaves behind: all the record fields it
mutates in place in the Go source, gathered per record index. -/
structure LinkResult where
  typs : List (Option TypeRec)
  frameEdges : List (List Edge)
  frameParent : List (Option Nat)
  frameGoroutine : List (Option Nat)
  gTos : List Nat
  gCtxt : List (Option Nat)
  dataRootNames : List String
  dataRootEdges : List (Option Edge)
  otherRootEdges : List (Option Edge)
  objEdges : List (List Edge)
  deriving DecidableEq

/-- Source function `link`: the whole second pass, in source phase order.
`globals` stands for the DWARF globals interval map (DWARF extraction is
an external provider per the spec). -/
def link (d : Dump) (globals : List (Nat × String)) : Except LinkErr LinkResult := do
  let typs ← resolveTypes d
  let frameEdges ← mapE (fun r => appendFields d [] r.data r.fields 0) d.frames
  let parents := frameParents d
  let chains ← linkChains d
  let fg := applyChains d.frames.length (chains.map fun c => c.2.1)
  let droots := linkDataRoots d globals
  let oroots := linkOtherRoots d
  let l9 ← objEdgesL9 d typs
  let objEdges := (List.range d.objects.length).map fun i =>
    l9.getD i [] ++ finalizerContrib d i
  .ok
    { typs := typs
      frameEdges := frameEdges
      frameParent := parents
      frameGoroutine := fg
      gTos := chains.map fun c => c.1
      gCtxt := chains.map fun c => c.2.2
      dataRootNames := droots.map fun p => p.1
      dataRootEdges := droots.map fun p => p.2
      otherRootEdges := oroots
      objEdges := objEdges }

instance {ε α : Type} [DecidableEq ε] [DecidableEq α] : DecidableEq (Except ε α) := fun a b =>
  match a, b with
  | .ok x, .ok y =>
    if h : x = y then .isTrue (by rw [h]) else .isFalse (by intro hh; injection hh; contradiction)
  | .error e, .error f =>
    if h : e = f then .isTrue (by rw [h]) else .isFalse (by intro hh; injection hh; contradiction)
  | .ok _, .error _ => .isFalse (by intro hh; injection hh)
  | .error _, .ok _ => .isFalse (by intro hh; injection hh)

/-- Scenario B of the spec: `Params(LE, 8)`, one type
`T(addr=0x1000, size=8, efaceptr=false, fields=[Ptr@0])`, one object
`O(addr=0x4000, typaddr=0x1000, kind=Object)` whose payload holds the
little-endian pointer `0x4000` (a pointer to itself). -/
def scenarioB : Dump :=
  { order := .little, ptrSize := 8, hChanSize := 96, heapStart := 0, heapEnd := 0,
    thechar := 6, experiment := "", ncpu := 1,
    types := [⟨"T", 8, false, [⟨fieldKindPtr, 0, ""⟩], 0x1000⟩],
    objects := [⟨typeKindObject, [0x00, 0x40, 0, 0, 0, 0, 0, 0], 0x4000, 0x1000⟩],
    frames := [], goroutines := [], dataroots := [], otherroots := [],
    finalizers := [], itabs := [] }

/-- The finalized object of `finDump`: untyped, eight zero bytes at
`0x4000`. -/
def finX : Object := ⟨typeKindObject, List.replicate 8 0, 0x4000, 0⟩

/-- A second untyped object at `0x5000` for a finalizer's `fn` address to
resolve into. -/
def finY : Object := ⟨typeKindObject, List.replicate 8 0, 0x5000, 0⟩

/-- A dump whose single finalizer finalizes the object at `0x4000`
(`finX`, objects index 0) with `fn = 0x5004`, which resolves into `finY`
(objects index 1) at offset 4. -/
def finDump : Dump :=
  { order := .little, ptrSize := 8, hChanSize := 96, heapStart := 0, heapEnd := 0,
    thechar := 6, experiment := "", ncpu := 1,
    types := [], objects := [finX, finY],
    frames := [], goroutines := [], dataroots := [], otherroots := [],
    finalizers := [⟨0x4000, 0x5004, 0, 0, 0⟩], itabs := [] }

/-- An `Array`-kind object whose payload (4 bytes) is shorter than its
element type's size (8 bytes): the element loop's uint64 bound
`len(data) - t.size` underflows. -/
def shortDump : Dump :=
  { order := .little, ptrSize := 8, hChanSize := 96, heapStart := 0, heapEnd := 0,
    thechar := 6, experiment := "", ncpu := 1,
    types := [⟨"T", 8, false, [⟨fieldKindPtr, 0, ""⟩], 0x1000⟩],
    objects := [⟨typeKindArray, [0, 0, 0, 0], 0x4000, 0x1000⟩],
    frames := [], goroutines := [], dataroots := [], otherroots := [],
    finalizers := [], itabs := [] }

/-- A dump with one data root whose `fromaddr = 0x10` is not in the
(empty) globals map and whose `toaddr` resolves to the object at
`0x4000`. -/
def unkDump : Dump :=
  { order := .little, ptrSize := 8, hChanSize := 96, heapStart := 0, heapEnd := 0,
    thechar := 6, experiment := "", ncpu := 1,
    types := [], objects := [⟨typeKindObject, List.replicate 8 0, 0x4000, 0⟩],
    frames := [], goroutines := [], dataroots := [⟨0x10, 0x4000⟩], otherroots := [],
    finalizers := [], itabs := [] }

/-- Two goroutines whose parent chains share their base frame: frame 0
(`[0x100, 0x140)`, depth 0) and frame 1 (`[0x120, 0x140)`, depth 0) both
chain to frame 2 (`0x140`, depth 1). -/
def shareDump : Dump :=
  { order := .little, ptrSize := 8, hChanSize := 96, heapStart := 0, heapEnd := 0,
    thechar := 6, experiment := "", ncpu := 1,
    types := [], objects := [],
    frames :=
      [⟨"f1", 0, List.replicate 0x40 0, 0x100, 0, 0, []⟩,
       ⟨"f2", 0, List.replicate 0x20 0, 0x120, 0, 0, []⟩,
       ⟨"base", 1, List.replicate 8 0, 0x140, 0, 0, []⟩],
    goroutines :=
      [⟨1, 0x100, 1, 0, 0, false, false, 0, "", 0, 0⟩,
       ⟨2, 0x120, 2, 0, 0, false, false, 0, "", 0, 0⟩],
    dataroots := [], otherroots := [], finalizers := [], itabs := [] }

/-- A dump carrying one itab record `I(addr=0x3000, ptr=false)` and one
object of an `Iface@0` type whose itab word holds `0x3000` and whose data
word holds the valid object address `0x4000`. -/
def ifaceDump : Dump :=
  { order := .little, ptrSize := 8, hChanSize := 96, heapStart := 0, heapEnd := 0,
    thechar := 6, experiment := "", ncpu := 1,
    types := [⟨"U", 16, false, [⟨fieldKindIface, 0, ""⟩], 0x1000⟩],
    objects :=
      [⟨typeKindObject,
        [0x00, 0x30, 0, 0, 0, 0, 0, 0, 0x00, 0x40, 0, 0, 0, 0, 0, 0],
        0x4000, 0x1000⟩],
    frames := [], goroutines := [], dataroots := [], otherroots := [],
    finalizers := [], itabs := [⟨0x3000, false⟩] }

/-- Byte-order encoding of an address into `ptrSize` bytes.  This inverse
direction does not exist in the source; it is the standard little/big
endian byte layout that `encoding/binary` writes, used to state the
round-trip property. -/
def writePtr (order : ByteOrder) (ptrSize : Nat) (addr : Nat) : List Nat :=
  match order with
  | .little => (List.range ptrSize).map fun i => addr / 2 ^ (8 * i) % 2 ^ 8
  | .big => (List.range ptrSize).map fun i => addr / 2 ^ (8 * (ptrSize - 1 - i)) % 2 ^ 8

/-- Two frames forming one (disjoint) goroutine stack:
`f1 [0x100, 0x140)` at depth 0 chains to `base` at `0x140`, depth 1. -/
def disjDump : Dump :=
  { order := .little, ptrSize := 8, hChanSize := 96, heapStart := 0, heapEnd := 0,
    thechar := 6, experiment := "", ncpu := 1,
    types := [], objects := [],
    frames :=
      [⟨"f1", 0, List.replicate 0x40 0, 0x100, 0, 0, []⟩,
       ⟨"base", 1, List.replicate 8 0, 0x140, 0, 0, []⟩],
    goroutines := [⟨1, 0x100, 1, 0, 0, false, false, 0, "", 0, 0⟩],
    dataroots := [], otherroots := [], finalizers := [], itabs := [] }

/-- `ifaceDump` with the itab record removed: the nonzero itab word
`0x3000` then has no matching `Itab`. -/
def ifaceDumpNoTab : Dump :=
  { order := .little, ptrSize := 8, hChanSize := 96, heapStart := 0, heapEnd := 0,
    thechar := 6, experiment := "", ncpu := 1,
    types := [⟨"U", 16, false, [⟨fieldKindIface, 0, ""⟩], 0x1000⟩],
    objects :=
      [⟨typeKindObject,
        [0x00, 0x30, 0, 0, 0, 0, 0, 0, 0x00, 0x40, 0, 0, 0, 0, 0, 0],
        0x4000, 0x1000⟩],
    frames := [], goroutines := [], dataroots := [], otherroots := [],
    finalizers := [], itabs := [] }

/-- `ifaceDump` with `itab.ptr = true`: the data word `0x4000` (the object
itself) produces one edge at offset 8, the itab word none. -/
def ifacePtrDump : Dump :=
  { order := .little, ptrSize := 8, hChanSize := 96, heapStart := 0, heapEnd := 0,
    thechar := 6, experiment := "", ncpu := 1,
    types := [⟨"U", 16, false, [⟨fieldKindIface, 0, ""⟩], 0x1000⟩],
    objects :=
      [⟨typeKindObject,
        [0x00, 0x30, 0, 0, 0, 0, 0, 0, 0x00, 0x40, 0, 0, 0, 0, 0, 0],
        0x4000, 0x1000⟩],
    frames := [], goroutines := [], dataroots := [], otherroots := [],
    finalizers := [], itabs := [⟨0x3000, true⟩] }

/-- The 16-byte Iface payload used by the iface witness calls: itab word
`0x3000`, data word `0x4000`, little-endian. -/
def ifData16 : List Nat :=
  [0x00, 0x30, 0, 0, 0, 0, 0, 0, 0x00, 0x40, 0, 0, 0, 0, 0, 0]

/-- `scenarioB` with 4-byte pointers (for exercising the 32-bit decoder). -/
def le4Dump : Dump := { scenarioB with ptrSize := 4 }

/-- `scenarioB` with the unsupported pointer size 5. -/
def size5Dump : Dump := { scenarioB with ptrSize := 5 }

/-- C1: linking Scenario B — Params(LE, ptrSize 8), one type
`T(addr=0x1000, size=8, efaceptr=false, fields=[Ptr@0])` and one object
`O(addr=0x4000, typaddr=0x1000, kind=Object)` whose 8 bytes hold the
little-endian value 0x4000 — succeeds and leaves O with exactly the edge
list `[Edge(to = O (index 0), fromoffset = 0, tooffset = 0)]`. -/
theorem scenarioB_self_edge :
    (link scenarioB []).map (fun r => r.objEdges) = .ok [[⟨0, 0, 0, "", 0⟩]] := by
  decide

/-- C2 (the code contradicts the invariant): in `finDump` the finalizer
phase appends to the finalized object `finX` (objects index 0) the edge
`⟨dst = 0, fromoffset = 0, tooffset = 4⟩`.  Its destination is `finX`
itself rather than the resolved auxiliary object `finY`, so
`e.to.addr + e.tooffset = 0x4004`, while the pointer decoded from
`finX.data` at `e.fromoffset = 0` is 0: invariant 3 fails for finalizer
edges. -/
theorem finalizer_edge_breaks_invariant :
    (link finDump []).map (fun r => r.objEdges) = .ok [[⟨0, 0, 4, "", 0⟩], []] ∧
    readPtrAt finDump finX.data 0 = .ok 0 ∧
    finX.addr + 4 ≠ 0 := by
  refine ⟨by decide, by decide, by decide⟩

/-- C3 (the code contradicts the claim): for the Array object of
`shortDump` with `len(data) = 4 < t.size = 8` the loop bound
`uint64(len(data)) - t.size` underflows to `2^64 - 4`, so the guard holds
at `i = 0`, `appendFields` is invoked, and the pointer read at offset 0
runs past the 4-byte payload — the link aborts out of range instead of
skipping the object. -/
theorem short_array_reads_out_of_range :
    link shortDump [] = .error .indexOutOfRange ∧
    sub64 4 8 = 2 ^ 64 - 4 := by
  refine ⟨by decide, by decide⟩

/-- C4 counterexample: the data root of `unkDump` has `fromaddr = 0x10`
and the globals map is empty, so the floor lookup misses and returns the
sentinel `(0, nil)`.  The link does name the root `"unknown global"`, but
the resolved edge's source offset is `fromaddr - 0 = 0x10`, not 0 as the
claim states. -/
theorem unknown_global_fromoffset_not_zero :
    (link unkDump []).map (fun r => (r.dataRootNames, r.dataRootEdges)) =
      .ok (["unknown global"], [some ⟨0, 0x10, 0, "", 0⟩]) ∧
    (0x10 : Nat) ≠ 0 := by
  refine ⟨by decide, by decide⟩

/-- C7 counterexample: in `shareDump` the frames at index 0
(`[0x100, 0x140)`, depth 0) and index 1 (`[0x120, 0x140)`, depth 0) both
chain to the frame at index 2 (`0x140`, depth 1).  The walk from
goroutine 0's tos visits frames 0 and 2, but after all goroutines are
processed frame 2 carries goroutine 1 (the last writer), so "every frame
visited from g.tos satisfies frame.goroutine == g" fails for
goroutine 0. -/
theorem shared_base_frame_goroutine_overwritten :
    (link shareDump []).map (fun r => r.frameGoroutine) = .ok [some 0, some 1, some 1] ∧
    chase (frameParents shareDump) 4 0 = some [0, 2] ∧
    (some 1 : Option Nat) ≠ some 0 := by
  refine ⟨by decide, by decide, by decide⟩

theorem link_ok_elim {d : Dump} {globals : List (Nat × String)} {res : LinkResult}
    (h : link d globals = .ok res) :
    ∃ typs frameEdges chains l9,
      resolveTypes d = .ok typs ∧
      mapE (fun r => appendFields d [] r.data r.fields 0) d.frames = .ok frameEdges ∧
      linkChains d = .ok chains ∧
      objEdgesL9 d typs = .ok l9 ∧
      res =
        { typs := typs
          frameEdges := frameEdges
          frameParent := frameParents d
          frameGoroutine := applyChains d.frames.length (chains.map fun c => c.2.1)
          gTos := chains.map fun c => c.1
          gCtxt := chains.map fun c => c.2.2
          dataRootNames := (linkDataRoots d globals).map fun p => p.1
          dataRootEdges := (linkDataRoots d globals).map fun p => p.2
          otherRootEdges := linkOtherRoots d
          objEdges := (List.range d.objects.length).map fun i =>
            l9.getD i [] ++ finalizerContrib d i } := by
  unfold link at h
  cases h1 : resolveTypes d with
  | error e =>
    rw [h1] at h
    exact Except.noConfusion h
  | ok typs =>
    rw [h1] at h
    simp only [bind, Except.bind] at h
    cases h2 : mapE (fun r => appendFields d [] r.data r.fields 0) d.frames with
    | error e =>
      rw [h2] at h
      simp at h
    | ok frameEdges =>
      rw [h2] at h
      cases h3 : linkChains d with
      | error e =>
        rw [h3] at h
        simp at h
      | ok chains =>
        rw [h3] at h
        cases h4 : objEdgesL9 d typs with
        | error e =>
          rw [h4] at h
          simp at h
        | ok l9 =>
          rw [h4] at h
          injection h with h
          exact ⟨typs, frameEdges, chains, l9, rfl, rfl, rfl, h4, h.symm⟩

theorem withIdx_mem {α : Type} {p : Nat × α} :
    ∀ {k : Nat} {l : List α}, p ∈ withIdx k l → ∃ j, p.1 = k + j ∧ l.get? j = some p.2 := by
  intro k l
  induction l generalizing k with
  | nil => intro h; exact absurd h (by simp [withIdx])
  | cons x xs ih =>
    intro h
    rw [withIdx] at h
    rcases List.mem_cons.mp h with h | h
    · exact ⟨0, by simp [h], by simp [h]⟩
    · obtain ⟨j, hj1, hj2⟩ := ih h
      exact ⟨j + 1, by omega, by simpa using hj2⟩

theorem assocLast_aux {κ α : Type} [DecidableEq κ] {k : κ} {v : α} :
    ∀ (l : List (κ × α)) (acc : Option α),
      l.foldl (fun acc kv => if kv.1 = k then some kv.2 else acc) acc = some v →
      (k, v) ∈ l ∨ acc = some v := by
  intro l
  induction l with
  | nil => intro acc h'; exact Or.inr h'
  | cons x xs ih =>
    intro acc h'
    rw [List.foldl_cons] at h'
    rcases ih _ h' with h'' | h''
    · exact Or.inl (List.mem_cons_of_mem _ h'')
    · by_cases hx : x.1 = k
      · rw [if_pos hx] at h''
        injection h'' with h''
        exact Or.inl (by rw [← hx, ← h'']; exact List.mem_cons_self _ _)
      · rw [if_neg hx] at h''
        exact Or.inr h''

theorem assocLast_mem {κ α : Type} [DecidableEq κ] {l : List (κ × α)} {k : κ} {v : α}
    (h : assocLast l k = some v) : (k, v) ∈ l := by
  rcases assocLast_aux l none h with h' | h'
  · exact h'
  · exact absurd h' (by simp)

theorem zip_get? {α β : Type} {l : List α} {m : List β} {i : Nat} {a : α} {b : β}
    (ha : l.get? i = some a) (hb : m.get? i = some b) : (l.zip m).get? i = some (a, b) := by
  induction l generalizing m i with
  | nil => simp at ha
  | cons x xs ih =>
    cases m with
    | nil => simp at hb
    | cons y ys =>
      cases i with
      | zero => simp_all
      | succ n => simpa using ih (by simpa using ha) (by simpa using hb)

theorem mapE_ok_get? {α β : Type} {f : α → Except LinkErr β} {l : List α} {ys : List β}
    (h : mapE f l = .ok ys) :
    ∀ {i : Nat} {x : α}, l.get? i = some x → ∃ y, f x = .ok y ∧ ys.get? i = some y := by
  induction l generalizing ys with
  | nil => intro i x hx; simp at hx
  | cons z zs ih =>
    intro i x hx
    rw [mapE] at h
    cases hz : f z with
    | error e => rw [hz] at h; exact Except.noConfusion h
    | ok y0 =>
      rw [hz] at h
      simp only [bind, Except.bind] at h
      cases hzs : mapE f zs with
      | error e => rw [hzs] at h; exact Except.noConfusion h
      | ok ys0 =>
        rw [hzs] at h
        injection h with h
        cases i with
        | zero =>
          injection hx with hx
          exact ⟨y0, by rw [hx] at hz; exact hz, by rw [← h]; simp⟩
        | succ n =>
          obtain ⟨y, hy1, hy2⟩ := ih hzs (by simpa using hx)
          exact ⟨y, hy1, by rw [← h]; simpa using hy2⟩

theorem heapLookup_aux {α : Type} {q : Nat} :
    ∀ (l : List (Nat × α)) (acc : Nat × Option α),
      ((l.foldl (fun acc kv =>
        if kv.1 ≤ q ∧ (acc.2.isNone ∨ acc.1 ≤ kv.1) then (kv.1, some kv.2) else acc) acc).2 = none) →
      (l.foldl (fun acc kv =>
        if kv.1 ≤ q ∧ (acc.2.isNone ∨ acc.1 ≤ kv.1) then (kv.1, some kv.2) else acc) acc) = acc := by
  intro l
  induction l with
  | nil => intro acc h'; rfl
  | cons x xs ih =>
    intro acc h'
    rw [List.foldl_cons] at h' ⊢
    by_cases hc : x.1 ≤ q ∧ (acc.2.isNone ∨ acc.1 ≤ x.1)
    · rw [if_pos hc] at h' ⊢
      have := ih _ h'
      rw [this] at h'
      simp at h'
    · rw [if_neg hc] at h' ⊢
      exact ih _ h'

theorem heapLookup_fst_of_none {α : Type} {l : List (Nat × α)} {q : Nat}
    (h : (heapLookup l q).2 = none) : (heapLookup l q).1 = 0 := by
  have := heapLookup_aux l (0, none) h
  rw [heapLookup, this]

theorem lookupFrame_spec {d : Dump} {sp dep j : Nat} (h : lookupFrame d sp dep = some j) :
    ∃ f, d.frames.get? j = some f ∧ f.addr = sp ∧ f.depth = dep := by
  have hm := assocLast_mem h
  rw [List.mem_map] at hm
  obtain ⟨p, hp, hpe⟩ := hm
  obtain ⟨jj, hj1, hj2⟩ := withIdx_mem hp
  injection hpe with he1 he2
  injection he1 with ha hd
  refine ⟨p.2, ?_, ha, hd⟩
  rw [← he2, hj1]
  simpa using hj2

theorem lookupFrame_lt {d : Dump} {sp dep j : Nat} (h : lookupFrame d sp dep = some j) :
    j < d.frames.length := by
  obtain ⟨f, hf, -, -⟩ := lookupFrame_spec h
  exact (List.get?_eq_some.mp hf).1

/-- C4 (amended): for every DataRoot whose `fromaddr` misses the globals
map (floor lookup yields `(0, nil)`), linking names the root
`"unknown global"`, and when the destination resolves the edge's
`fromoffset` equals `fromaddr` — the source computes `fromaddr - a` with
the sentinel key `a = 0`, so the offset is `fromaddr`, not the 0 the
original claim stated. -/
theorem unknown_global_amended :
    ∀ (d : Dump) (globals : List (Nat × String)) (res : LinkResult) (i : Nat) (r : DataRoot),
      link d globals = .ok res →
      d.dataroots.get? i = some r →
      (heapLookup globals r.fromaddr).2 = none →
      res.dataRootNames.get? i = some "unknown global" ∧
      ∀ e, res.dataRootEdges.get? i = some (some e) → e.fromoffset = r.fromaddr := by
  intro d globals res i r hlink hr hmiss
  obtain ⟨typs, fE, chains, l9, h1, h2, h3, h4, hres⟩ := link_ok_elim hlink
  subst hres
  constructor
  · show ((linkDataRoots d globals).map fun p => p.1).get? i = some "unknown global"
    rw [List.get?_map, linkDataRoots, List.get?_map, hr]
    simp only [Option.map_some']
    simp [hmiss]
  · intro e he
    have hz : (heapLookup globals r.fromaddr).1 = 0 := heapLookup_fst_of_none hmiss
    simp only [LinkResult.dataRootEdges] at he
    rw [List.get?_map, linkDataRoots, List.get?_map, hr] at he
    simp only [Option.map_some'] at he
    split at he
    · exact Option.noConfusion (Option.some.inj he)
    · split at he
      · exact Option.noConfusion (Option.some.inj he)
      · injection he with he
        injection he with he
        rw [← he, hz]
        simp

/-- C6: after linking, every frame's parent is exactly the frames-map
entry keyed by `(f.addr + len(f.data), f.depth + 1)` (`none` when absent,
with no error possible), so every frame `f` with parent `p` satisfies
`p.addr = f.addr + len(f.data)` and `p.depth = f.depth + 1` (uint64
addition). -/
theorem frame_parent_linked :
    ∀ (d : Dump) (globals : List (Nat × String)) (res : LinkResult),
      link d globals = .ok res →
      res.frameParent = frameParents d ∧
      ∀ i j fi fj, res.frameParent.get? i = some (some j) →
        d.frames.get? i = some fi → d.frames.get? j = some fj →
        fj.addr = add64 fi.addr fi.data.length ∧ fj.depth = add64 fi.depth 1 := by
  intro d globals res hlink
  obtain ⟨typs, fE, chains, l9, h1, h2, h3, h4, hres⟩ := link_ok_elim hlink
  subst hres
  refine ⟨rfl, ?_⟩
  intro i j fi fj hp hfi hfj
  simp only [LinkResult.frameParent] at hp
  rw [frameParents, List.get?_map, hfi] at hp
  simp only [Option.map_some'] at hp
  injection hp with hp
  obtain ⟨f, hf, ha, hd⟩ := lookupFrame_spec hp
  rw [hfj] at hf
  injection hf with hf
  rw [hf]
  exact ⟨ha, hd⟩

/-- C10: an object whose `typaddr` is 0 is bound to no type (`nil`) and
is skipped by the object-to-object edge phase, so the only edges it can
end up with are the ones the finalizer phase appends. -/
theorem untyped_object_edges :
    ∀ (d : Dump) (globals : List (Nat × String)) (res : LinkResult) (i : Nat) (x : Object),
      link d globals = .ok res →
      d.objects.get? i = some x → x.typaddr = 0 →
      res.typs.get? i = some none ∧
      res.objEdges.get? i = some (finalizerContrib d i) := by
  intro d globals res i x hlink hx htyp
  obtain ⟨typs, fE, chains, l9, h1, h2, h3, h4, hres⟩ := link_ok_elim hlink
  subst hres
  rw [resolveTypes] at h1
  obtain ⟨y, hy1, hy2⟩ := mapE_ok_get? h1 hx
  rw [if_pos htyp] at hy1
  injection hy1 with hy1
  rw [← hy1] at hy2
  refine ⟨hy2, ?_⟩
  rw [objEdgesL9] at h4
  obtain ⟨w, hw1, hw2⟩ := mapE_ok_get? h4 (zip_get? hx hy2)
  simp only at hw1
  injection hw1 with hw1
  have hin : i < d.objects.length := (List.get?_eq_some.mp hx).1
  simp only [LinkResult.objEdges]
  rw [List.get?_map, List.get?_range hin]
  simp only [Option.map_some']
  rw [List.getD_eq_get?, hw2, ← hw1]
  simp

theorem getD_some_elim {l : List (Option Nat)} {i j : Nat} (h : l.getD i none = some j) :
    l.get? i = some (some j) := by
  rw [List.getD_eq_get?] at h
  rcases hg : l.get? i with _ | o
  · rw [hg] at h; exact Option.noConfusion h
  · rw [hg] at h; simp at h; rw [h]

theorem frameParents_get {d : Dump} {i j : Nat}
    (h : (frameParents d).getD i none = some j) :
    ∃ fi fj, d.frames.get? i = some fi ∧ d.frames.get? j = some fj ∧
      fj.addr = add64 fi.addr fi.data.length ∧ fj.depth = add64 fi.depth 1 := by
  have h' := getD_some_elim h
  rw [frameParents, List.get?_map] at h'
  rcases hfi : d.frames.get? i with _ | fi
  · rw [hfi] at h'; exact Option.noConfusion h'
  · rw [hfi] at h'
    simp only [Option.map_some'] at h'
    injection h' with h'
    obtain ⟨fj, hfj, ha, hd⟩ := lookupFrame_spec h'
    exact ⟨fi, fj, rfl, hfj, ha, hd⟩

theorem chainIdx_shift {parents : List (Option Nat)} {start j : Nat}
    (h : parents.getD start none = some j) :
    ∀ k, chainIdx parents start (k + 1) = chainIdx parents j k := by
  intro k
  induction k with
  | zero => exact h
  | succ n ih => rw [chainIdx, ih, chainIdx]

theorem chase_none_chain {parents : List (Option Nat)} :
    ∀ (fuel start : Nat), chase parents fuel start = none →
      ∀ k < fuel, ∃ i, chainIdx parents start k = some i := by
  intro fuel
  induction fuel with
  | zero => intro start h k hk; omega
  | succ m ih =>
    intro start h k hk
    rw [chase] at h
    split at h
    · exact Option.noConfusion h
    · next j hp =>
      split at h
      · next hc =>
        cases k with
        | zero => exact ⟨start, rfl⟩
        | succ n =>
          obtain ⟨i, hi⟩ := ih j hc n (by omega)
          exact ⟨i, by rw [chainIdx_shift hp, hi]⟩
      · next l hc => exact Option.noConfusion h

theorem chain_depth {d : Dump} {start : Nat} {f0 : StackFrame}
    (hst : d.frames.get? start = some f0) :
    ∀ (k : Nat) (i : Nat), 1 ≤ k → chainIdx (frameParents d) start k = some i →
      ∃ f, d.frames.get? i = some f ∧ f.depth = (f0.depth + k) % 2 ^ 64 := by
  intro k
  induction k with
  | zero => intro i h0; omega
  | succ m ih =>
    intro i _ hk
    cases m with
    | zero =>
      rw [chainIdx, chainIdx] at hk
      obtain ⟨fi, fj, hfi, hfj, ha, hd⟩ := frameParents_get hk
      rw [hst] at hfi
      injection hfi with hfi
      refine ⟨fj, hfj, ?_⟩
      rw [hd, ← hfi, add64]
    | succ n =>
      rw [chainIdx] at hk
      rcases hm : chainIdx (frameParents d) start (n + 1) with _ | m'
      · rw [hm] at hk; exact Option.noConfusion hk
      · rw [hm] at hk
        obtain ⟨fm, hfm, hdm⟩ := ih m' (by omega) hm
        obtain ⟨fi', fj, hfi', hfj, ha, hd⟩ := frameParents_get hk
        rw [hfm] at hfi'
        injection hfi' with hfi'
        refine ⟨fj, hfj, ?_⟩
        rw [hd, ← hfi', hdm, add64]
        have hM : (2 : Nat) ^ 64 = 18446744073709551616 := by norm_num
        rw [hM]
        omega

theorem chainIdx_lt {d : Dump} {start k i : Nat}
    (hk : chainIdx (frameParents d) start (k + 1) = some i) : i < d.frames.length := by
  rw [chainIdx] at hk
  split at hk
  · obtain ⟨fi, fj, hfi, hfj, -, -⟩ := frameParents_get hk
    exact (List.get?_eq_some.mp hfj).1
  · exact Option.noConfusion hk

theorem chase_distinct_depths {d : Dump} {start a b ia ib : Nat} {f0 : StackFrame}
    (hM : d.frames.length < 2 ^ 64)
    (hf0 : d.frames.get? start = some f0)
    (hab : a < b) (hb : b ≤ d.frames.length)
    (hia : chainIdx (frameParents d) start a = some ia)
    (hib : chainIdx (frameParents d) start b = some ib) : ia ≠ ib := by
  intro heq
  have h64 : (2 : Nat) ^ 64 = 18446744073709551616 := by norm_num
  obtain ⟨fb, hfb, hdb⟩ := chain_depth hf0 b ib (by omega) hib
  cases a with
  | zero =>
    have : ia = start := by
      rw [chainIdx] at hia
      exact (Option.some.inj hia).symm
    rw [heq] at this
    rw [this] at hfb
    rw [hf0] at hfb
    injection hfb with hfb
    rw [← hfb] at hdb
    rw [h64] at hdb hM
    omega
  | succ m =>
    obtain ⟨fa, hfa, hda⟩ := chain_depth hf0 (m + 1) ia (by omega) hia
    rw [heq] at hfa
    rw [hfb] at hfa
    injection hfa with hfa
    rw [← hfa] at hda
    rw [hdb] at hda
    rw [h64] at hda hM
    omega

theorem chase_complete (d : Dump) (start : Nat) (hM : d.frames.length < 2 ^ 64)
    (hstart : start < d.frames.length) :
    chase (frameParents d) (d.frames.length + 1) start ≠ none := by
  intro hnone
  have hall := chase_none_chain (d.frames.length + 1) start hnone
  have hmap : ∀ k ∈ Finset.range (d.frames.length + 1),
      (chainIdx (frameParents d) start k).getD 0 ∈ Finset.range d.frames.length := by
    intro k hk
    obtain ⟨i, hi⟩ := hall k (Finset.mem_range.mp hk)
    rw [hi]
    simp only [Option.getD_some]
    rw [Finset.mem_range]
    cases k with
    | zero =>
      have : i = start := (Option.some.inj hi).symm
      rw [this]
      exact hstart
    | succ m => exact chainIdx_lt hi
  obtain ⟨a, ha, b, hb, hab, hfab⟩ :=
    Finset.exists_ne_map_eq_of_card_lt_of_maps_to (by simp) hmap
  obtain ⟨f0, hf0⟩ : ∃ f0, d.frames.get? start = some f0 := by
    rcases hg : d.frames.get? start with _ | f0
    · rw [List.get?_eq_none] at hg; omega
    · exact ⟨f0, rfl⟩
  obtain ⟨ia, hia⟩ := hall a (Finset.mem_range.mp ha)
  obtain ⟨ib, hib⟩ := hall b (Finset.mem_range.mp hb)
  rw [hia, hib] at hfab
  simp only [Option.getD_some] at hfab
  rcases Nat.lt_or_ge a b with hlt | hge
  · exact chase_distinct_depths hM hf0 hlt (by have := Finset.mem_range.mp hb; omega) hia hib hfab
  · have hlt : b < a := by omega
    exact chase_distinct_depths hM hf0 hlt (by have := Finset.mem_range.mp ha; omega) hib hia hfab.symm

theorem setAll_length : ∀ (c : List Nat) (acc : List (Option Nat)) (g : Nat),
    (setAll acc c g).length = acc.length := by
  intro c
  induction c with
  | nil => intro acc g; rfl
  | cons x t ih =>
    intro acc g
    rw [setAll, List.foldl_cons]
    have := ih (acc.set x (some g)) g
    rw [setAll] at this
    rw [this, List.length_set]

theorem setAll_get_not_mem : ∀ (c : List Nat) (acc : List (Option Nat)) (g fi : Nat),
    fi ∉ c → (setAll acc c g).get? fi = acc.get? fi := by
  intro c
  induction c with
  | nil => intro acc g fi h; rfl
  | cons x t ih =>
    intro acc g fi h
    rw [List.mem_cons] at h
    push_neg at h
    rw [setAll, List.foldl_cons]
    have := ih (acc.set x (some g)) g fi h.2
    rw [setAll] at this
    rw [this, List.get?_set_ne _ _ (fun hx => h.1 hx.symm)]

theorem setAll_get_mem : ∀ (c : List Nat) (acc : List (Option Nat)) (g fi : Nat),
    fi ∈ c → fi < acc.length → (setAll acc c g).get? fi = some (some g) := by
  intro c
  induction c with
  | nil => intro acc g fi h; exact absurd h (by simp)
  | cons x t ih =>
    intro acc g fi h hlt
    rw [setAll, List.foldl_cons]
    by_cases ht : fi ∈ t
    · have := ih (acc.set x (some g)) g fi ht (by rw [List.length_set]; exact hlt)
      rw [setAll] at this
      rw [this]
    · have hx : fi = x := by
        rcases List.mem_cons.mp h with h' | h'
        · exact h'
        · exact absurd h' ht
      have hnm := setAll_get_not_mem t (acc.set x (some g)) g fi ht
      rw [setAll] at hnm
      rw [hnm, hx, List.get?_set_eq]
      obtain ⟨y, hy⟩ : ∃ y, acc.get? x = some y := by
        rcases hg : acc.get? x with _ | y
        · rw [List.get?_eq_none] at hg; omega
        · exact ⟨y, rfl⟩
      rw [hy]
      rfl

theorem applyAux_length : ∀ (cs : List (List Nat)) (acc : List (Option Nat)) (k : Nat),
    (applyChainsAux acc k cs).length = acc.length := by
  intro cs
  induction cs with
  | nil => intro acc k; rfl
  | cons c rest ih =>
    intro acc k
    rw [applyChainsAux, ih, setAll_length]

theorem applyAux_not_mem {fi : Nat} : ∀ (cs : List (List Nat)) (acc : List (Option Nat)) (k : Nat),
    (∀ c ∈ cs, fi ∉ c) → (applyChainsAux acc k cs).get? fi = acc.get? fi := by
  intro cs
  induction cs with
  | nil => intro acc k h; rfl
  | cons c rest ih =>
    intro acc k h
    rw [applyChainsAux, ih _ _ (fun c' hc' => h c' (List.mem_cons_of_mem _ hc')),
      setAll_get_not_mem _ _ _ _ (h c (List.mem_cons_self _ _))]

theorem applyAux_target {fi : Nat} :
    ∀ (cs : List (List Nat)) (acc : List (Option Nat)) (k gi : Nat) (c : List Nat),
      cs.get? gi = some c → fi ∈ c → fi < acc.length →
      (∀ gj c', gj ≠ gi → cs.get? gj = some c' → fi ∉ c') →
      (applyChainsAux acc k cs).get? fi = some (some (k + gi)) := by
  intro cs
  induction cs with
  | nil => intro acc k gi c hc; simp at hc
  | cons c0 rest ih =>
    intro acc k gi c hc hfi hlt hdisj
    cases gi with
    | zero =>
      injection hc with hc
      rw [applyChainsAux]
      have hrest : ∀ c' ∈ rest, fi ∉ c' := by
        intro c' hc'
        obtain ⟨j, hj⟩ := List.mem_iff_get?.mp hc'
        exact hdisj (j + 1) c' (by omega) (by simpa using hj)
      rw [applyAux_not_mem _ _ _ hrest, Nat.add_zero, hc]
      exact setAll_get_mem _ _ _ _ hfi hlt
    | succ gj =>
      rw [applyChainsAux]
      have h0 : fi ∉ c0 := hdisj 0 c0 (by omega) rfl
      have := ih (setAll acc c0 k) (k + 1) gj c (by simpa using hc) hfi
        (by rw [setAll_length]; exact hlt)
        (fun gj' c' hne hget => hdisj (gj' + 1) c' (by omega) (by simpa using hget))
      rw [this]
      congr 2
      omega

theorem chase_visited_lt {d : Dump} :
    ∀ (fuel start : Nat) (visited : List Nat),
      chase (frameParents d) fuel start = some visited → start < d.frames.length →
      ∀ x ∈ visited, x < d.frames.length := by
  intro fuel
  induction fuel with
  | zero => intro start visited h; exact Option.noConfusion h
  | succ m ih =>
    intro start visited h hstart x hx
    rw [chase] at h
    split at h
    · injection h with h
      rw [← h] at hx
      rcases List.mem_singleton.mp hx with rfl
      exact hstart
    · next j hp =>
      split at h
      · exact Option.noConfusion h
      · next l hc =>
        injection h with h
        rw [← h] at hx
        rcases List.mem_cons.mp hx with rfl | hx'
        · exact hstart
        · obtain ⟨fi, fj, -, hfj, -, -⟩ := frameParents_get hp
          exact ih j l hc (List.get?_eq_some.mp hfj).1 x hx'

theorem goChain_ok_elim {d : Dump} {parents : List (Option Nat)} {g : GoRoutine}
    {c : Nat × List Nat × Option Nat} (h : goChain d parents g = .ok c) :
    lookupFrame d g.tosaddr 0 = some c.1 ∧
    chase parents (d.frames.length + 1) c.1 = some c.2.1 ∧
    c.2.2 = findObj d g.ctxtaddr := by
  rw [goChain] at h
  split at h
  · exact Except.noConfusion h
  · next ti hti =>
    split at h
    · exact Except.noConfusion h
    · next visited hv =>
      injection h with h
      rw [← h]
      exact ⟨hti, hv, rfl⟩

theorem mapE_ok_get?_rev {α β : Type} {f : α → Except LinkErr β} {l : List α} {ys : List β}
    (h : mapE f l = .ok ys) :
    ∀ {i : Nat} {y : β}, ys.get? i = some y → ∃ x, l.get? i = some x ∧ f x = .ok y := by
  induction l generalizing ys with
  | nil =>
    intro i y hy
    rw [mapE] at h
    injection h with h
    rw [← h] at hy
    simp at hy
  | cons z zs ih =>
    intro i y hy
    rw [mapE] at h
    cases hz : f z with
    | error e => rw [hz] at h; exact Except.noConfusion h
    | ok y0 =>
      rw [hz] at h
      simp only [bind, Except.bind] at h
      cases hzs : mapE f zs with
      | error e => rw [hzs] at h; exact Except.noConfusion h
      | ok ys0 =>
        rw [hzs] at h
        injection h with h
        rw [← h] at hy
        cases i with
        | zero =>
          injection hy with hy
          exact ⟨z, rfl, by rw [hy] at hz; exact hz⟩
        | succ n =>
          obtain ⟨x, hx1, hx2⟩ := ih hzs (by simpa using hy)
          exact ⟨x, by simpa using hx1, hx2⟩

/-- C7 (amended): (1) a goroutine whose `(tosaddr, 0)` frame is missing
makes the link fatal, so a linked dump resolves every tos; (2) the parent
walk terminates: with fuel `frames + 1` the chase never runs out, because
each parent's depth is its child's depth plus one (mod `2^64`) and the
frame set is finite; (3) when no frame is shared between two goroutines'
chains, every frame visited from `g.tos` ends with `goroutine = g` — in
general a shared frame keeps the last goroutine processed, which is what
the counterexample exhibits. -/
theorem goroutine_walk_amended :
    (∀ (d : Dump) (globals : List (Nat × String)) (res : LinkResult) (gi : Nat) (g : GoRoutine),
      link d globals = .ok res → d.goroutines.get? gi = some g →
      ∃ ti, lookupFrame d g.tosaddr 0 = some ti) ∧
    (∀ (d : Dump) (start : Nat), d.frames.length < 2 ^ 64 → start < d.frames.length →
      chase (frameParents d) (d.frames.length + 1) start ≠ none) ∧
    (∀ (d : Dump) (globals : List (Nat × String)) (res : LinkResult)
      (chains : List (Nat × List Nat × Option Nat)),
      link d globals = .ok res → linkChains d = .ok chains →
      List.Pairwise (fun a b => ∀ x ∈ a.2.1, x ∉ b.2.1) chains →
      ∀ gi c, chains.get? gi = some c → ∀ fi ∈ c.2.1,
        res.frameGoroutine.get? fi = some (some gi)) := by
  refine ⟨?_, ?_, ?_⟩
  · intro d globals res gi g hlink hg
    obtain ⟨typs, fE, chains, l9, h1, h2, h3, h4, hres⟩ := link_ok_elim hlink
    rw [linkChains] at h3
    obtain ⟨c, hc1, hc2⟩ := mapE_ok_get? h3 hg
    obtain ⟨hti, -, -⟩ := goChain_ok_elim hc1
    exact ⟨c.1, hti⟩
  · exact chase_complete
  · intro d globals res chains hlink hchains hpw gi c hc fi hfi
    obtain ⟨typs, fE, chains', l9, h1, h2, h3, h4, hres⟩ := link_ok_elim hlink
    have hce : chains = chains' := by
      rw [hchains] at h3
      injection h3
    subst hce
    subst hres
    rw [linkChains] at hchains
    obtain ⟨g, hg1, hg2⟩ := mapE_ok_get?_rev hchains hc
    obtain ⟨hti, hchase, -⟩ := goChain_ok_elim hg2
    have hstart : c.1 < d.frames.length := lookupFrame_lt hti
    have hflt : fi < d.frames.length := chase_visited_lt _ _ _ hchase hstart fi hfi
    show (applyChains d.frames.length (chains.map fun c => c.2.1)).get? fi = some (some gi)
    rw [applyChains]
    have hdisj : ∀ gj c', gj ≠ gi → (chains.map fun c => c.2.1).get? gj = some c' →
        fi ∉ c' := by
      intro gj c' hne hget hmem
      rw [List.get?_map] at hget
      rcases hcj : chains.get? gj with _ | cj
      · rw [hcj] at hget; exact Option.noConfusion hget
      · rw [hcj] at hget
        injection hget with hget
        have hget' : cj.2.1 = c' := hget
        obtain ⟨hgilt, hgie⟩ := List.get?_eq_some.mp hc
        obtain ⟨hgjlt, hgje⟩ := List.get?_eq_some.mp hcj
        rw [List.pairwise_iff_get] at hpw
        rcases Nat.lt_or_ge gj gi with hlt | hge
        · have hr := hpw ⟨gj, hgjlt⟩ ⟨gi, hgilt⟩ hlt
          rw [hgie, hgje] at hr
          exact hr fi (by rw [hget']; exact hmem) hfi
        · have hlt : gi < gj := by omega
          have hr := hpw ⟨gi, hgilt⟩ ⟨gj, hgjlt⟩ hlt
          rw [hgie, hgje] at hr
          exact hr fi hfi (by rw [hget']; exact hmem)
    have := applyAux_target (chains.map fun c => c.2.1)
        (List.replicate d.frames.length none) 0 gi c.2.1
        (by rw [List.get?_map, hc]; rfl) hfi
        (by rw [List.length_replicate]; exact hflt) hdisj
    rw [this, Nat.zero_add]

theorem readPtr_ok_sizes {d : Dump} {b : List Nat} {p : Nat} (h : readPtr d b = .ok p) :
    d.ptrSize = 4 ∨ d.ptrSize = 8 := by
  rw [readPtr] at h
  split_ifs at h with h1 h2 h3 h4
  · exact Or.inl h1.2
  · exact Or.inl h2.2
  · exact Or.inr h3.2
  · exact Or.inr h4.2

theorem readPtrAt_ok_sizes {d : Dump} {data : List Nat} {off p : Nat}
    (h : readPtrAt d data off = .ok p) : d.ptrSize = 4 ∨ d.ptrSize = 8 := by
  rw [readPtrAt] at h
  cases hs : sliceFrom data off with
  | error e => rw [hs] at h; exact Except.noConfusion h
  | ok b =>
    rw [hs] at h
    simp only [bind, Except.bind] at h
    exact readPtr_ok_sizes h

theorem add64_lt (a b : Nat) : add64 a b < 2 ^ 64 := by
  rw [add64]
  exact Nat.mod_lt _ (by norm_num)

theorem add64_ptrSize_ne {x ps : Nat} (hps : ps = 4 ∨ ps = 8) : add64 x ps ≠ x := by
  rw [add64]
  have h64 : (2 : Nat) ^ 64 = 18446744073709551616 := by norm_num
  rw [h64]
  rcases hps with rfl | rfl <;> omega

theorem appendEdge_ok_shape {d : Dump} {edges : List Edge} {data : List Nat} {off : Nat}
    {f : FieldRec} {es : List Edge} (h : appendEdge d edges data off f = .ok es) :
    es = edges ∨ ∃ t : Edge, es = edges ++ [t] ∧ t.fromoffset = off ∧
      (d.ptrSize = 4 ∨ d.ptrSize = 8) := by
  rw [appendEdge] at h
  cases hp : readPtrAt d data off with
  | error e => rw [hp] at h; exact Except.noConfusion h
  | ok p =>
    rw [hp] at h
    simp only [bind, Except.bind] at h
    split at h
    · injection h with h; exact Or.inl h.symm
    · split at h
      · injection h with h; exact Or.inl h.symm
      · injection h with h
        exact Or.inr ⟨_, h.symm, rfl, readPtrAt_ok_sizes hp⟩

/-- C5: for an Iface field at offset `o` (absolute `off = base + o`):
(1) no edge is ever emitted for the itab word at `off` — every edge added
by the Iface case sits at `off + ptrSize`; (2) if the itab pointer read at
`off` is nonzero and the matching Itab record has `ptr = false`, no edge
at all is produced, regardless of the data word; (3) a nonzero itab
pointer with no matching Itab record is fatal. -/
theorem iface_field_discipline :
    (∀ (d : Dump) (edges : List Edge) (data : List Nat) (o : Nat) (nm : String)
      (base : Nat) (es : List Edge),
      appendFields d edges data [⟨fieldKindIface, o, nm⟩] base = .ok es →
      ∀ e ∈ es, e ∈ edges ∨
        (e.fromoffset = add64 (add64 base o) d.ptrSize ∧ e.fromoffset ≠ add64 base o)) ∧
    (∀ (d : Dump) (edges : List Edge) (data : List Nat) (o : Nat) (nm : String)
      (base tp : Nat) (it : Itab),
      readPtrAt d data (add64 base o) = .ok tp → tp ≠ 0 →
      itabsMap d tp = some it → it.ptr = false →
      appendFields d edges data [⟨fieldKindIface, o, nm⟩] base = .ok edges) ∧
    (∀ (d : Dump) (edges : List Edge) (data : List Nat) (o : Nat) (nm : String)
      (base tp : Nat),
      readPtrAt d data (add64 base o) = .ok tp → tp ≠ 0 →
      itabsMap d tp = none →
      appendFields d edges data [⟨fieldKindIface, o, nm⟩] base =
        .error (.fatal "cant find iface tab")) := by
  refine ⟨?_, ?_, ?_⟩
  · intro d edges data o nm base es h e he
    simp only [appendFields] at h
    rw [if_neg (by decide), if_neg (by decide), if_pos (by decide)] at h
    cases hp : readPtrAt d data (add64 base o) with
    | error err => rw [hp] at h; exact Except.noConfusion h
    | ok tp =>
      rw [hp] at h
      simp only [bind, Except.bind] at h
      by_cases htp : tp ≠ 0
      · rw [if_pos htp] at h
        split at h
        · exact Except.noConfusion h
        · next it hit =>
          by_cases hptr : it.ptr
          · rw [if_pos hptr] at h
            cases hae : appendEdge d edges data (add64 (add64 base o) d.ptrSize)
                ⟨fieldKindIface, o, nm⟩ with
            | error err => rw [hae] at h; exact Except.noConfusion h
            | ok es2 =>
              rw [hae] at h
              injection h with h
              rw [← h] at he
              rcases appendEdge_ok_shape hae with hsh | ⟨t, hsh, hoff, hps⟩
              · rw [hsh] at he; exact Or.inl he
              · rw [hsh] at he
                rcases List.mem_append.mp he with he' | he'
                · exact Or.inl he'
                · rcases List.mem_singleton.mp he' with rfl
                  exact Or.inr ⟨hoff, by rw [hoff]; exact add64_ptrSize_ne hps⟩
          · rw [if_neg hptr] at h
            injection h with h
            rw [← h] at he
            exact Or.inl he
      · rw [if_neg htp] at h
        injection h with h
        rw [← h] at he
        exact Or.inl he
  · intro d edges data o nm base tp it hrp htp hitab hptr
    simp only [appendFields]
    rw [if_neg (by decide), if_neg (by decide), if_pos (by decide), hrp]
    simp only [bind, Except.bind]
    rw [if_pos htp]
    split
    · next heq =>
      rw [hitab] at heq
      exact Option.noConfusion heq
    · next t heq =>
      rw [hitab] at heq
      injection heq with heq
      rw [← heq, if_neg (by rw [hptr]; exact Bool.false_ne_true)]
  · intro d edges data o nm base tp hrp htp hitab
    simp only [appendFields]
    rw [if_neg (by decide), if_neg (by decide), if_pos (by decide), hrp]
    simp only [bind, Except.bind]
    rw [if_pos htp]
    split
    · rfl
    · next t heq =>
      rw [hitab] at heq
      exact Option.noConfusion heq

theorem read4_oob {β : Nat → Nat → Nat → Nat → Nat} {b : List Nat} :
    ((do
      let b0 ← getByte b 0
      let b1 ← getByte b 1
      let b2 ← getByte b 2
      let b3 ← getByte b 3
      Except.ok (β b0 b1 b2 b3) : Except LinkErr Nat) = .error .indexOutOfRange) ↔
    b.length < 4 := by
  rcases b with _ | ⟨b0, _ | ⟨b1, _ | ⟨b2, _ | ⟨b3, rest⟩⟩⟩⟩ <;>
    simp [getByte, bind, Except.bind]

theorem read8_oob {β : Nat → Nat → Nat → Nat → Nat → Nat → Nat → Nat → Nat}
    {b : List Nat} :
    ((do
      let b0 ← getByte b 0
      let b1 ← getByte b 1
      let b2 ← getByte b 2
      let b3 ← getByte b 3
      let b4 ← getByte b 4
      let b5 ← getByte b 5
      let b6 ← getByte b 6
      let b7 ← getByte b 7
      Except.ok (β b0 b1 b2 b3 b4 b5 b6 b7) : Except LinkErr Nat) =
        .error .indexOutOfRange) ↔
    b.length < 8 := by
  rcases b with _ | ⟨b0, _ | ⟨b1, _ | ⟨b2, _ | ⟨b3, _ | ⟨b4, _ | ⟨b5, _ | ⟨b6, _ | ⟨b7, rest⟩⟩⟩⟩⟩⟩⟩⟩ <;>
    simp [getByte, bind, Except.bind]

theorem readPtr_oob_iff {d : Dump} {b : List Nat} (hps : d.ptrSize = 4 ∨ d.ptrSize = 8) :
    readPtr d b = .error .indexOutOfRange ↔ b.length < d.ptrSize := by
  rcases hps with hps | hps <;> cases hord : d.order <;> rw [readPtr, hps, hord]
  · rw [if_pos (by decide)]
    exact read4_oob
  · rw [if_neg (by decide), if_pos (by decide)]
    exact read4_oob
  · rw [if_neg (by decide), if_neg (by decide), if_pos (by decide)]
    exact read8_oob
  · rw [if_neg (by decide), if_neg (by decide), if_neg (by decide), if_pos (by decide)]
    exact read8_oob

theorem readPtrAt_oob_iff {d : Dump} {data : List Nat} {off : Nat}
    (hps : d.ptrSize = 4 ∨ d.ptrSize = 8) :
    readPtrAt d data off = .error .indexOutOfRange ↔ data.length < off + d.ptrSize := by
  rw [readPtrAt, sliceFrom]
  by_cases hoff : off ≤ data.length
  · rw [if_pos hoff]
    simp only [bind, Except.bind]
    rw [readPtr_oob_iff hps, List.length_drop]
    omega
  · rw [if_neg hoff]
    simp only [bind, Except.bind]
    constructor
    · intro _
      omega
    · intro _
      trivial

theorem appendEdge_oob_iff {d : Dump} {edges : List Edge} {data : List Nat} {off : Nat}
    {f : FieldRec} (hps : d.ptrSize = 4 ∨ d.ptrSize = 8) :
    appendEdge d edges data off f = .error .indexOutOfRange ↔
      data.length < off + d.ptrSize := by
  rw [appendEdge]
  cases hp : readPtrAt d data off with
  | error e =>
    simp only [bind, Except.bind]
    constructor
    · intro h
      injection h with h
      rw [h] at hp
      exact (readPtrAt_oob_iff hps).mp hp
    · intro h
      have := (readPtrAt_oob_iff hps).mpr h
      rw [hp] at this
      injection this with this
      rw [this]
  | ok p =>
    simp only [bind, Except.bind]
    constructor
    · intro h
      split at h
      · exact Except.noConfusion h
      · split at h
        · exact Except.noConfusion h
        · exact Except.noConfusion h
    · intro h
      have := (readPtrAt_oob_iff hps).mpr h
      rw [hp] at this
      exact Except.noConfusion this

/-- C9: `appendEdge` performs no bounds check before decoding: for a
supported pointer size it aborts with an index-out-of-range exactly when
`off + ptrSize > len(data)`, and any pointer-bearing field descriptor
whose absolute offset lands past `len(data) - ptrSize` makes
`appendFields` propagate that out-of-range abort rather than skip or
report it. -/
theorem append_edge_unchecked :
    (∀ (d : Dump) (edges : List Edge) (data : List Nat) (off : Nat) (f : FieldRec),
      d.ptrSize = 4 ∨ d.ptrSize = 8 →
      (appendEdge d edges data off f = .error .indexOutOfRange ↔
        data.length < off + d.ptrSize)) ∧
    (∀ (d : Dump) (edges : List Edge) (data : List Nat) (f : FieldRec) (base : Nat),
      d.ptrSize = 4 ∨ d.ptrSize = 8 →
      (f.kind = fieldKindPtr ∨ f.kind = fieldKindString ∨ f.kind = fieldKindSlice ∨
        f.kind = fieldKindIface ∨ f.kind = fieldKindEface) →
      data.length < add64 base f.offset + d.ptrSize →
      appendFields d edges data [f] base = .error .indexOutOfRange) := by
  constructor
  · intro d edges data off f hps
    exact appendEdge_oob_iff hps
  · intro d edges data f base hps hk hlen
    simp only [appendFields]
    rcases hk with hk | hk | hk | hk | hk
    · rw [if_pos (Or.inl hk), (appendEdge_oob_iff hps).mpr hlen]
      rfl
    · rw [if_pos (Or.inr (Or.inl hk)), (appendEdge_oob_iff hps).mpr hlen]
      rfl
    · rw [if_pos (Or.inr (Or.inr hk)), (appendEdge_oob_iff hps).mpr hlen]
      rfl
    · rw [if_neg (by rw [hk]; decide), if_neg (by rw [hk]; decide), if_pos hk,
        (readPtrAt_oob_iff hps).mpr hlen]
      rfl
    · rw [if_neg (by rw [hk]; decide), if_pos hk,
        (appendEdge_oob_iff hps).mpr hlen]
      rfl

theorem read4_ok_elim {β : Nat → Nat → Nat → Nat → Nat} {b : List Nat} {p : Nat}
    (h : (do
      let b0 ← getByte b 0
      let b1 ← getByte b 1
      let b2 ← getByte b 2
      let b3 ← getByte b 3
      Except.ok (β b0 b1 b2 b3) : Except LinkErr Nat) = .ok p) :
    ∃ b0 b1 b2 b3 rest, b = b0 :: b1 :: b2 :: b3 :: rest ∧ p = β b0 b1 b2 b3 := by
  rcases b with _ | ⟨b0, _ | ⟨b1, _ | ⟨b2, _ | ⟨b3, rest⟩⟩⟩⟩ <;>
    simp [getByte, bind, Except.bind] at h
  exact ⟨b0, b1, b2, b3, rest, rfl, h.symm⟩

theorem read8_ok_elim {β : Nat → Nat → Nat → Nat → Nat → Nat → Nat → Nat → Nat}
    {b : List Nat} {p : Nat}
    (h : (do
      let b0 ← getByte b 0
      let b1 ← getByte b 1
      let b2 ← getByte b 2
      let b3 ← getByte b 3
      let b4 ← getByte b 4
      let b5 ← getByte b 5
      let b6 ← getByte b 6
      let b7 ← getByte b 7
      Except.ok (β b0 b1 b2 b3 b4 b5 b6 b7) : Except LinkErr Nat) = .ok p) :
    ∃ b0 b1 b2 b3 b4 b5 b6 b7 rest, b = b0 :: b1 :: b2 :: b3 :: b4 :: b5 :: b6 :: b7 :: rest ∧
      p = β b0 b1 b2 b3 b4 b5 b6 b7 := by
  rcases b with _ | ⟨b0, _ | ⟨b1, _ | ⟨b2, _ | ⟨b3, _ | ⟨b4, _ | ⟨b5, _ | ⟨b6, _ | ⟨b7, rest⟩⟩⟩⟩⟩⟩⟩⟩ <;>
    simp [getByte, bind, Except.bind] at h
  exact ⟨b0, b1, b2, b3, b4, b5, b6, b7, rest, rfl, h.symm⟩

/-- C8: `readPtr` supports exactly {little, big} x {4, 8} — any other
pointer size is the fatal "unsupported" error regardless of the input
bytes; a 4-byte read of genuine bytes (< 256) zero-extends below `2^32`;
and writing any address representable in `ptrSize` bytes in the configured
byte order and reading it back yields the address, for both endiannesses
and both widths. -/
theorem readPtr_contract :
    (∀ (d : Dump) (b : List Nat), d.ptrSize ≠ 4 → d.ptrSize ≠ 8 →
      readPtr d b = .error (.fatal "unsupported order/ptrSize")) ∧
    (∀ (d : Dump) (b : List Nat) (p : Nat), d.ptrSize = 4 → (∀ x ∈ b, x < 2 ^ 8) →
      readPtr d b = .ok p → p < 2 ^ 32) ∧
    (∀ (d : Dump) (addr : Nat), (d.ptrSize = 4 ∨ d.ptrSize = 8) →
      addr < 2 ^ (8 * d.ptrSize) →
      readPtr d (writePtr d.order d.ptrSize addr) = .ok addr) := by
  refine ⟨?_, ?_, ?_⟩
  · intro d b h4 h8
    rw [readPtr, if_neg (fun hc => h4 hc.2), if_neg (fun hc => h4 hc.2),
      if_neg (fun hc => h8 hc.2), if_neg (fun hc => h8 hc.2)]
  · intro d b p hps hbytes h
    cases hord : d.order
    · rw [readPtr, hps, hord, if_pos (by decide)] at h
      obtain ⟨b0, b1, b2, b3, rest, hb, hp⟩ := read4_ok_elim h
      have h0 : b0 < 2 ^ 8 := hbytes b0 (by rw [hb]; simp)
      have h1 : b1 < 2 ^ 8 := hbytes b1 (by rw [hb]; simp)
      have h2 : b2 < 2 ^ 8 := hbytes b2 (by rw [hb]; simp)
      have h3 : b3 < 2 ^ 8 := hbytes b3 (by rw [hb]; simp)
      rw [hp]
      norm_num at h0 h1 h2 h3 ⊢
      omega
    · rw [readPtr, hps, hord, if_neg (by decide), if_pos (by decide)] at h
      obtain ⟨b0, b1, b2, b3, rest, hb, hp⟩ := read4_ok_elim h
      have h0 : b0 < 2 ^ 8 := hbytes b0 (by rw [hb]; simp)
      have h1 : b1 < 2 ^ 8 := hbytes b1 (by rw [hb]; simp)
      have h2 : b2 < 2 ^ 8 := hbytes b2 (by rw [hb]; simp)
      have h3 : b3 < 2 ^ 8 := hbytes b3 (by rw [hb]; simp)
      rw [hp]
      norm_num at h0 h1 h2 h3 ⊢
      omega
  · intro d addr hps hlt
    rcases hps with hps | hps <;> cases hord : d.order <;> rw [hps] <;>
      rw [hps] at hlt
    · have hw : writePtr ByteOrder.little 4 addr =
          [addr % 2 ^ 8, addr / 2 ^ 8 % 2 ^ 8, addr / 2 ^ 16 % 2 ^ 8,
            addr / 2 ^ 24 % 2 ^ 8] := by
        rw [writePtr]
        norm_num [List.range_succ]
      rw [hw, readPtr, hps, hord, if_pos (by decide)]
      simp [getByte, bind, Except.bind]
      norm_num at hlt ⊢
      omega
    · have hw : writePtr ByteOrder.big 4 addr =
          [addr / 2 ^ 24 % 2 ^ 8, addr / 2 ^ 16 % 2 ^ 8, addr / 2 ^ 8 % 2 ^ 8,
            addr % 2 ^ 8] := by
        rw [writePtr]
        norm_num [List.range_succ]
      rw [hw, readPtr, hps, hord, if_neg (by decide), if_pos (by decide)]
      simp [getByte, bind, Except.bind]
      norm_num at hlt ⊢
      omega
    · have hw : writePtr ByteOrder.little 8 addr =
          [addr % 2 ^ 8, addr / 2 ^ 8 % 2 ^ 8, addr / 2 ^ 16 % 2 ^ 8,
            addr / 2 ^ 24 % 2 ^ 8, addr / 2 ^ 32 % 2 ^ 8, addr / 2 ^ 40 % 2 ^ 8,
            addr / 2 ^ 48 % 2 ^ 8, addr / 2 ^ 56 % 2 ^ 8] := by
        rw [writePtr]
        norm_num [List.range_succ]
      rw [hw, readPtr, hps, hord, if_neg (by decide), if_neg (by decide),
        if_pos (by decide)]
      simp [getByte, bind, Except.bind]
      norm_num at hlt ⊢
      omega
    · have hw : writePtr ByteOrder.big 8 addr =
          [addr / 2 ^ 56 % 2 ^ 8, addr / 2 ^ 48 % 2 ^ 8, addr / 2 ^ 40 % 2 ^ 8,
            addr / 2 ^ 32 % 2 ^ 8, addr / 2 ^ 24 % 2 ^ 8, addr / 2 ^ 16 % 2 ^ 8,
            addr / 2 ^ 8 % 2 ^ 8, addr % 2 ^ 8] := by
        rw [writePtr]
        norm_num [List.range_succ]
      rw [hw, readPtr, hps, hord, if_neg (by decide), if_neg (by decide),
        if_neg (by decide), if_pos (by decide)]
      simp [getByte, bind, Except.bind]
      norm_num at hlt ⊢
      omega

theorem unknown_global_amended_witness :
    (⟨[none], [], [], [], [], [], ["unknown global"], [some ⟨0, 0x10, 0, "", 0⟩], [],
      [[]]⟩ : LinkResult).dataRootNames.get? 0 = some "unknown global" ∧
    (⟨0, 0x10, 0, "", 0⟩ : Edge).fromoffset = (⟨0x10, 0x4000⟩ : DataRoot).fromaddr := by
  have h := unknown_global_amended unkDump []
    ⟨[none], [], [], [], [], [], ["unknown global"], [some ⟨0, 0x10, 0, "", 0⟩], [], [[]]⟩
    0 ⟨0x10, 0x4000⟩ (by decide) (by decide) (by decide)
  exact ⟨h.1, h.2 ⟨0, 0x10, 0, "", 0⟩ (by decide)⟩

theorem iface_field_discipline_witness :
    ((⟨0, 8, 0, "", 0⟩ : Edge) ∈ ([] : List Edge) ∨
      ((⟨0, 8, 0, "", 0⟩ : Edge).fromoffset = add64 (add64 0 0) ifacePtrDump.ptrSize ∧
        (⟨0, 8, 0, "", 0⟩ : Edge).fromoffset ≠ add64 0 0)) ∧
    appendFields ifaceDump [] ifData16 [⟨fieldKindIface, 0, ""⟩] 0 = .ok [] ∧
    appendFields ifaceDumpNoTab [] ifData16 [⟨fieldKindIface, 0, ""⟩] 0 =
      .error (.fatal "cant find iface tab") := by
  refine ⟨?_, ?_, ?_⟩
  · exact iface_field_discipline.1 ifacePtrDump [] ifData16 0 "" 0 [⟨0, 8, 0, "", 0⟩]
      (by decide) ⟨0, 8, 0, "", 0⟩ (by decide)
  · exact iface_field_discipline.2.1 ifaceDump [] ifData16 0 "" 0 0x3000 ⟨0x3000, false⟩
      (by decide) (by decide) (by decide) rfl
  · exact iface_field_discipline.2.2 ifaceDumpNoTab [] ifData16 0 "" 0 0x3000
      (by decide) (by decide) (by decide)

theorem frame_parent_linked_witness :
    (⟨"base", 1, List.replicate 8 0, 0x140, 0, 0, []⟩ : StackFrame).addr =
      add64 (⟨"f1", 0, List.replicate 0x40 0, 0x100, 0, 0, []⟩ : StackFrame).addr
        (⟨"f1", 0, List.replicate 0x40 0, 0x100, 0, 0, []⟩ : StackFrame).data.length ∧
    (⟨"base", 1, List.replicate 8 0, 0x140, 0, 0, []⟩ : StackFrame).depth =
      add64 (⟨"f1", 0, List.replicate 0x40 0, 0x100, 0, 0, []⟩ : StackFrame).depth 1 :=
  (frame_parent_linked disjDump []
    ⟨[], [[], []], [some 1, none], [some 0, some 0], [0], [none], [], [], [], []⟩
    (by decide)).2 0 1
    ⟨"f1", 0, List.replicate 0x40 0, 0x100, 0, 0, []⟩
    ⟨"base", 1, List.replicate 8 0, 0x140, 0, 0, []⟩
    (by decide) (by decide) (by decide)

theorem goroutine_walk_amended_witness :
    (∃ ti, lookupFrame disjDump 0x100 0 = some ti) ∧
    chase (frameParents disjDump) 3 0 ≠ none ∧
    ([some 0, some 0] : List (Option Nat)).get? 1 = some (some 0) := by
  refine ⟨?_, ?_, ?_⟩
  · exact goroutine_walk_amended.1 disjDump []
      ⟨[], [[], []], [some 1, none], [some 0, some 0], [0], [none], [], [], [], []⟩
      0 ⟨1, 0x100, 1, 0, 0, false, false, 0, "", 0, 0⟩ (by decide) (by decide)
  · exact goroutine_walk_amended.2.1 disjDump 0 (by decide) (by decide)
  · exact goroutine_walk_amended.2.2 disjDump []
      ⟨[], [[], []], [some 1, none], [some 0, some 0], [0], [none], [], [], [], []⟩
      [(0, [0, 1], none)] (by decide) (by decide) (by decide)
      0 (0, [0, 1], none) (by decide) 1 (by decide)

theorem readPtr_contract_witness :
    readPtr size5Dump [] = .error (.fatal "unsupported order/ptrSize") ∧
    (0x12345678 : Nat) < 2 ^ 32 ∧
    readPtr scenarioB (writePtr scenarioB.order scenarioB.ptrSize 0x4000) = .ok 0x4000 := by
  refine ⟨?_, ?_, ?_⟩
  · exact readPtr_contract.1 size5Dump [] (by decide) (by decide)
  · exact readPtr_contract.2.1 le4Dump [0x78, 0x56, 0x34, 0x12] 0x12345678 rfl
      (by decide) (by decide)
  · exact readPtr_contract.2.2 scenarioB 0x4000 (by decide) (by decide)

theorem append_edge_unchecked_witness :
    (appendEdge shortDump [] [0, 0, 0, 0] 0 ⟨fieldKindPtr, 0, ""⟩ =
        .error .indexOutOfRange ↔
      ([0, 0, 0, 0] : List Nat).length < 0 + shortDump.ptrSize) ∧
    appendFields shortDump [] [0, 0, 0, 0] [⟨fieldKindPtr, 0, ""⟩] 0 =
      .error .indexOutOfRange := by
  constructor
  · exact append_edge_unchecked.1 shortDump [] [0, 0, 0, 0] 0 ⟨fieldKindPtr, 0, ""⟩
      (by decide)
  · exact append_edge_unchecked.2 shortDump [] [0, 0, 0, 0] ⟨fieldKindPtr, 0, ""⟩ 0
      (by decide) (by decide) (by decide)

theorem untyped_object_edges_witness :
    (⟨[none, none], [], [], [], [], [], [], [], [],
      [[⟨0, 0, 4, "", 0⟩], []]⟩ : LinkResult).typs.get? 0 = some none ∧
    (⟨[none, none], [], [], [], [], [], [], [], [],
      [[⟨0, 0, 4, "", 0⟩], []]⟩ : LinkResult).objEdges.get? 0 =
      some (finalizerContrib finDump 0) :=
  untyped_object_edges finDump []
    ⟨[none, none], [], [], [], [], [], [], [], [], [[⟨0, 0, 4, "", 0⟩], []]⟩
    0 finX (by decide) (by decide) (by decide)
